import Mathlib

/-!
Verification of the links-shortener repository against its specification.

The frontend API service module (`withRetry`, `shortenUrl`, `getAnalytics`
error-message computation) and the App URL validator are embedded from the
JavaScript sources.  The backend core (Link Store, Code Generator,
Redirect/Shorten Service, Migration Runner) is Rust code not present in the
source tree; those components are modelled from the specification, as marked
on each definition.
-/

namespace LinksShortener

/-! ## Frontend API service module (src/unnamed/part_000) -/

/-- The `data` object of an axios error response; `errorField` is
`err.response.data.error` (`none` when `data` or `data.error` is absent,
`some ""` when present but the empty string). -/
structure RespData where
  errorField : Option String
deriving Repr, DecidableEq

/-- An axios error: `response` is `none` for a network-class error
(no HTTP response); `message` is the JS `err.message` (the empty string
models a falsy message). -/
structure AxiosError where
  response : Option RespData
  message : String
deriving Repr, DecidableEq

/-- JS `a || b` on strings: a string is truthy iff non-empty. -/
def jsOrStr (a b : String) : String :=
  if a = "" then b else a

/-- JS `err.response?.data?.error` coerced through `||`: the empty string
when the chain is absent. -/
def errFieldStr (e : AxiosError) : String :=
  match e.response with
  | none => ""
  | some rd =>
    match rd.errorField with
    | none => ""
    | some s => s

/-- The error-message computation shared by `shortenUrl` and `getAnalytics`:
`let message = err.response?.data?.error || err.message || default;
 if (!err.response) message = 'Network error: Unable to reach backend.';`. -/
def apiMessage (dflt : String) (e : AxiosError) : String :=
  let message := jsOrStr (errFieldStr e) (jsOrStr e.message dflt)
  if e.response.isNone then "Network error: Unable to reach backend." else message

/-- Message thrown by `shortenUrl` on failure. -/
def shortenUrlMessage (e : AxiosError) : String :=
  apiMessage "Failed to shorten URL." e

/-- Message thrown by `getAnalytics` (the API service function) on failure. -/
def getAnalyticsMessage (e : AxiosError) : String :=
  apiMessage "Failed to fetch analytics." e

/-- One call of the wrapped async function: attempt `i` either resolves with
a value or rejects with an `AxiosError`. -/
abbrev Attempt (α : Type) := Nat → Except AxiosError α

/-- The loop body of `withRetry`: `i` is the current attempt index,
`remaining` the number of retries still allowed (`retries - i`).  Returns the
final outcome together with the total number of attempts made.
`if (!err.response && i < retries) continue; break;` -/
def withRetryGo {α : Type} (fn : Attempt α) : Nat → Nat → Except AxiosError α × Nat
  | i, 0 =>
    match fn i with
    | .ok v => (.ok v, i + 1)
    | .error e => (.error e, i + 1)
  | i, r + 1 =>
    match fn i with
    | .ok v => (.ok v, i + 1)
    | .error e =>
      if e.response.isNone then withRetryGo fn (i + 1) r
      else (.error e, i + 1)

/-- `withRetry(fn, retries)`: run `fn`, retrying only errors that carry no
HTTP response, at most `retries` additional times. -/
def withRetry {α : Type} (fn : Attempt α) (retries : Nat) : Except AxiosError α × Nat :=
  withRetryGo fn 0 retries

/-- `shortenUrl`/`getAnalytics` call `withRetry` with the default of 2 retries. -/
def withRetryDefault {α : Type} (fn : Attempt α) : Except AxiosError α × Nat :=
  withRetry fn 2

/-! ## Frontend App (src/unnamed/part_001) -/

/-- What `new URL(value)` yields when parsing succeeds; only the `protocol`
property (scheme plus trailing colon, e.g. `"http:"`) is consulted by App. -/
structure ParsedUrl where
  protocol : String
deriving Repr, DecidableEq

/-- The behaviour of the browser `URL` constructor, abstracted: `none` models
a thrown parse error. -/
abbrev UrlParse := String → Option ParsedUrl

/-- `validateUrl` from App.jsx: parse the value with `new URL`; accept iff the
protocol is `http:` or `https:`; a parse failure is caught and rejected. -/
def validateUrl (parse : UrlParse) (value : String) : Bool :=
  match parse value with
  | some parsed => parsed.protocol = "http:" || parsed.protocol = "https:"
  | none => false

/-- Observable outcome of `handleSubmit`: whether a request was sent to the
API service, and the locally shown validation error if any. -/
structure SubmitOutcome where
  requestSent : Bool
  localError : Option String
deriving Repr, DecidableEq

/-- `handleSubmit` from App.jsx, up to the validation gate: when `validateUrl`
rejects, set the error text and return without calling `shortenUrl`;
otherwise call `shortenUrl` (a request is sent). -/
def handleSubmit (parse : UrlParse) (url : String) : SubmitOutcome :=
  if validateUrl parse url = false then
    { requestSent := false, localError := some "Please enter a valid http(s) URL." }
  else
    { requestSent := true, localError := none }

/-! ## Backend Link Store and Redirect/Shorten Service

The backend is Rust code absent from the source tree; the definitions below
are modelled from the specification (sections 4.1–4.3), using the persisted
field names of `backend/migrations/001_init.sql` (`short_code`,
`original_url`, `created_at`, `transition_count`). -/

/-- A row of the `urls` table / link collection.  `transition_count` is the
hit count; it is `Int` (SQL `BIGINT`), with non-negativity proved as an
invariant rather than assumed by the type. -/
structure LinkRecord where
  short_code : String
  original_url : String
  created_at : Nat
  transition_count : Int
deriving Repr, DecidableEq

/-- Error taxonomy of the core (spec section 7). -/
inductive StoreError where
  | InvalidUrl
  | DuplicateCode
  | GenerationExhausted
  | NotFound
deriving Repr, DecidableEq

/-- The Link Store state: the rows of the link collection. -/
abbrev Store := List LinkRecord

/-- The short codes present in the store, in row order. -/
def codes (store : Store) : List String :=
  store.map (fun r => r.short_code)

/-- Modelled from the spec: `findByCode(shortCode) -> LinkRecord | NotFound`
(Link Store, section 4.2); backend Rust source absent from the tree. -/
def findByCode (store : Store) (code : String) : Option LinkRecord :=
  store.find? (fun r => r.short_code = code)

/-- Modelled from the spec: `insert(shortCode, originalUrl) -> LinkRecord |
DuplicateCode` (Link Store, section 4.2) — atomic, fails with `DuplicateCode`
if the code already exists, never partially writes; backend Rust source
absent from the tree.  Returns the store after the call and the result. -/
def insert (store : Store) (code url : String) (now : Nat) :
    Store × Except StoreError LinkRecord :=
  match findByCode store code with
  | some _ => (store, .error .DuplicateCode)
  | none =>
    let r : LinkRecord := ⟨code, url, now, 0⟩
    (store ++ [r], .ok r)

/-- The single-row update performed by the atomic increment: add 1 to the
`transition_count` of the row whose `short_code` matches, leave others as-is. -/
def bump (code : String) (s : LinkRecord) : LinkRecord :=
  if s.short_code = code then { s with transition_count := s.transition_count + 1 } else s

/-- Modelled from the spec: `incrementHit(shortCode) -> newCount | NotFound`
(Link Store, section 4.2) — a single atomic update of the addressed row, not
a caller-side read-modify-write; backend Rust source absent from the tree. -/
def incrementHit (store : Store) (code : String) : Store × Except StoreError Int :=
  match findByCode store code with
  | none => (store, .error .NotFound)
  | some r => (store.map (bump code), .ok (r.transition_count + 1))

/-- A candidate-code source for the Code Generator: the candidate derived
from the URL and the salt/attempt counter (spec section 4.1; pure). -/
abbrev CodeGen := String → Nat → String

/-- Modelled from the spec: the shorten loop of the Redirect/Shorten Service
(sections 4.1, 4.3) — generate a candidate, try `insert`; on `DuplicateCode`
regenerate with the next salt/counter, bounded by the attempt cap; exceeding
it fails with `GenerationExhausted` and no partial record is written; backend
Rust source absent from the tree. -/
def shortenLoop (gen : CodeGen) (url : String) (now : Nat) (store : Store) :
    Nat → Nat → Store × Except StoreError LinkRecord
  | _, 0 => (store, .error .GenerationExhausted)
  | attempt, fuel + 1 =>
    let c := gen url attempt
    match insert store c url now with
    | (_, .error .DuplicateCode) => shortenLoop gen url now store (attempt + 1) fuel
    | (store', .error e) => (store', .error e)
    | (store', .ok r) => (store', .ok r)

/-- Modelled from the spec: URL validation of `shorten` — absolute URL,
http/https scheme only (section 4.3); backend Rust source absent from the
tree. -/
def isValidHttpUrl (s : String) : Bool :=
  "http://".data.isPrefixOf s.data || "https://".data.isPrefixOf s.data

/-- Result of `shorten`: the short code and the constructed short URL. -/
structure ShortenResult where
  short_code : String
  short_url : String
deriving Repr, DecidableEq

/-- The Generator's maximum attempt count (spec section 4.1, e.g. 5). -/
def maxAttempts : Nat := 5

/-- Modelled from the spec: `shorten(url) -> {shortCode, shortUrl}` (section
4.3) — validate the URL (`InvalidUrl` otherwise, nothing written), then run
the generator/insert loop bounded by the attempt cap; the short URL is the
base URL plus the code; backend Rust source absent from the tree. -/
def shorten (gen : CodeGen) (base : String) (now : Nat) (store : Store) (url : String) :
    Store × Except StoreError ShortenResult :=
  if isValidHttpUrl url = false then (store, .error .InvalidUrl)
  else
    match shortenLoop gen url now store 0 maxAttempts with
    | (store', .error e) => (store', .error e)
    | (store', .ok r) => (store', .ok ⟨r.short_code, base ++ r.short_code⟩)

/-- Modelled from the spec: `resolveAndCount(shortCode) -> originalUrl`
(section 4.3) — look up the record (`NotFound` if absent, nothing altered),
issue the atomic increment, return the original URL; backend Rust source
absent from the tree. -/
def resolveAndCount (store : Store) (code : String) : Store × Except StoreError String :=
  match findByCode store code with
  | none => (store, .error .NotFound)
  | some r => ((incrementHit store code).1, .ok r.original_url)

/-- The analytics payload: the four persisted fields of the record. -/
structure Analytics where
  short_code : String
  original_url : String
  created_at : Nat
  transition_count : Int
deriving Repr, DecidableEq

/-- Modelled from the spec: `getAnalytics(shortCode) -> {shortCode,
originalUrl, createdAt, hitCount}` (section 4.3) — a pure read, `NotFound`
if absent; backend Rust source absent from the tree. -/
def getAnalytics (store : Store) (code : String) : Store × Except StoreError Analytics :=
  match findByCode store code with
  | none => (store, .error .NotFound)
  | some r => (store, .ok ⟨r.short_code, r.original_url, r.created_at, r.transition_count⟩)

/-- The hit count currently stored for a code, if present. -/
def hitCountOf (store : Store) (code : String) : Option Int :=
  (findByCode store code).map (fun r => r.transition_count)

/-- A sequence of resolve events applied to the store: each event is one
`resolveAndCount` call for some code, executed as one atomic store update, so
any concurrent interleaving of calls is one such sequence. -/
def applyResolves (store : Store) : List String → Store
  | [] => store
  | c :: cs => applyResolves (resolveAndCount store c).1 cs

/-! ## Migration Registry and Migration Runner

Modelled from the spec (sections 3, 4.4): the Rust migration system
(`src/migrations/` of the backend, with its `Migration` trait, registry and
runner) is absent from the source tree; only the backend README describes it. -/

/-- Modelled from the spec: a Migration Registry entry — `id` defines the
total order; `up` is the forward action on the database state (`none` models
a failed "up"); `down` the reverse action. -/
structure Migration (DB : Type) where
  id : Nat
  up : DB → Option DB
  down : DB → DB

/-- A row of the migration-history collection: migration `id` and the
`applied_at` timestamp written when its "up" completed. -/
structure MigrationRecord where
  id : Nat
  applied_at : Nat
deriving Repr, DecidableEq

/-- The ids in the migration-history set. -/
def appliedIds (hist : List MigrationRecord) : List Nat :=
  hist.map (fun rec => rec.id)

/-- Fatal runner outcomes: a gap in the applied-id set (an unapplied
migration older than an already-applied one), or a failed "up" step. -/
inductive MigError where
  | Gap (missing : Nat)
  | UpFailed (id : Nat)
deriving Repr, DecidableEq

/-- Modelled from the spec: the Migration Runner (section 4.4) — walk the
registry in ascending id order; skip entries already in the history; a
pending entry older than some applied id is a gap and aborts startup
fatally; otherwise execute "up", append a MigrationRecord and continue; a
failed "up" aborts the remaining queue.  Returns the database, the history
and the trace of ids applied by this run, in application order.  Backend
Rust source absent from the tree. -/
def runRegistry {DB : Type} (now : Nat) :
    List (Migration DB) → DB → List MigrationRecord →
    Except MigError (DB × List MigrationRecord × List Nat)
  | [], db, hist => .ok (db, hist, [])
  | m :: rest, db, hist =>
    if m.id ∈ appliedIds hist then
      runRegistry now rest db hist
    else if (appliedIds hist).any (fun j => m.id < j) then
      .error (.Gap m.id)
    else
      match m.up db with
      | none => .error (.UpFailed m.id)
      | some db' =>
        match runRegistry now rest db' (hist ++ [⟨m.id, now⟩]) with
        | .ok (db'', hist', trace) => .ok (db'', hist', m.id :: trace)
        | .error e => .error e

/-! ## Helper lemmas about the Link Store -/

theorem findByCode_eq_none_iff (store : Store) (c : String) :
    findByCode store c = none ↔ c ∉ codes store := by
  simp only [findByCode, codes, List.find?_eq_none, List.mem_map, decide_eq_true_eq]
  constructor
  · rintro h ⟨r, hr, hrc⟩
    exact h r hr hrc
  · rintro h r hr hrc
    exact h ⟨r, hr, hrc⟩

theorem findByCode_some_code (store : Store) (c : String) (r : LinkRecord)
    (h : findByCode store c = some r) : r.short_code = c := by
  have := List.find?_some h
  simpa using this

theorem findByCode_some_mem (store : Store) (c : String) (r : LinkRecord)
    (h : findByCode store c = some r) : r ∈ store :=
  List.mem_of_find?_eq_some h

theorem bump_short_code (d : String) (s : LinkRecord) :
    (bump d s).short_code = s.short_code := by
  unfold bump
  split <;> rfl

theorem find?_map_bump (d c : String) :
    ∀ l : Store, (l.map (bump d)).find? (fun s => s.short_code = c) =
      (l.find? (fun s => s.short_code = c)).map (bump d) := by
  intro l
  induction l with
  | nil => rfl
  | cons h t ih =>
    by_cases hc : h.short_code = c
    · simp [List.find?_cons, bump_short_code, hc]
    · simp [List.find?_cons, bump_short_code, hc, ih]

theorem findByCode_map_bump (store : Store) (d c : String) :
    findByCode (store.map (bump d)) c = (findByCode store c).map (bump d) := by
  simpa [findByCode] using find?_map_bump d c store

theorem findByCode_after_resolve_self (store : Store) (c : String) (r : LinkRecord)
    (h : findByCode store c = some r) :
    findByCode (resolveAndCount store c).1 c =
      some { r with transition_count := r.transition_count + 1 } := by
  have hcode := findByCode_some_code store c r h
  simp only [resolveAndCount, h, incrementHit]
  rw [findByCode_map_bump, h]
  simp [bump, hcode]

theorem findByCode_after_resolve_other (store : Store) (c d : String) (hcd : c ≠ d) :
    findByCode (resolveAndCount store d).1 c = findByCode store c := by
  unfold resolveAndCount
  cases hd : findByCode store d with
  | none => rfl
  | some r0 =>
    simp only [incrementHit, hd]
    rw [findByCode_map_bump]
    cases hc : findByCode store c with
    | none => rfl
    | some r =>
      have hcode := findByCode_some_code store c r hc
      simp [bump, hcode, hcd]

theorem resolveAndCount_fst_not_found (store : Store) (c : String)
    (h : findByCode store c = none) : (resolveAndCount store c).1 = store := by
  simp [resolveAndCount, h]

/-! ## Claim C1 -/

/-- C1: for every short code present in the store, any sequence of
`resolveAndCount` calls — each an atomic store update, so any concurrent
interleaving of calls, also with calls for other codes, is such a sequence —
increases the code's `hit_count` by exactly the number of calls addressed to
it: no lost increments. -/
theorem C1_resolveAndCount_adds_N (store : Store) (c : String) (r : LinkRecord)
    (evs : List String) (h : findByCode store c = some r) :
    hitCountOf (applyResolves store evs) c =
      some (r.transition_count + (evs.count c : Int)) := by
  induction evs generalizing store r with
  | nil => simp [applyResolves, hitCountOf, h]
  | cons d cs ih =>
    by_cases hdc : d = c
    · subst hdc
      have h1 := findByCode_after_resolve_self store d r h
      have h2 := ih _ _ h1
      simp only [applyResolves, h2, List.count_cons, Option.some.injEq]
      simp
      ring
    · have h1 : findByCode (resolveAndCount store d).1 c = some r := by
        rw [findByCode_after_resolve_other store c d (fun hc => hdc hc.symm)]
        exact h
      have h2 := ih _ _ h1
      simp only [applyResolves, h2, List.count_cons, Option.some.injEq]
      simp [hdc]

/-- Witness for C1: a store holding code `"a"` at hit count 0, resolved three
times, ends at hit count 3. -/
theorem C1_witness :
    hitCountOf (applyResolves [⟨"a", "https://x", 0, 0⟩] ["a", "a", "a"]) "a" = some 3 := by
  have h := C1_resolveAndCount_adds_N [⟨"a", "https://x", 0, 0⟩] "a"
    ⟨"a", "https://x", 0, 0⟩ ["a", "a", "a"] rfl
  simpa using h

/-! ## Helper lemmas about the shorten loop -/

theorem shortenLoop_ok (gen : CodeGen) (url : String) (now : Nat) :
    ∀ fuel attempt store store' r,
      shortenLoop gen url now store attempt fuel = (store', .ok r) →
      findByCode store r.short_code = none ∧ store' = store ++ [r] ∧
      r.original_url = url ∧ r.created_at = now ∧ r.transition_count = 0 := by
  intro fuel
  induction fuel with
  | zero =>
    intro attempt store store' r h
    simp [shortenLoop] at h
  | succ n ih =>
    intro attempt store store' r h
    rw [shortenLoop] at h
    cases hf : findByCode store (gen url attempt) with
    | some x =>
      simp only [insert, hf] at h
      exact ih (attempt + 1) store store' r h
    | none =>
      simp only [insert, hf] at h
      rw [Prod.mk.injEq] at h
      obtain ⟨hs, hr⟩ := h
      injection hr with hr
      subst hr
      subst hs
      exact ⟨hf, rfl, rfl, rfl, rfl⟩

theorem shorten_ok (gen : CodeGen) (base : String) (now : Nat) (store : Store)
    (url : String) (store' : Store) (res : ShortenResult)
    (h : shorten gen base now store url = (store', .ok res)) :
    ∃ r : LinkRecord, store' = store ++ [r] ∧ res.short_code = r.short_code ∧
      findByCode store r.short_code = none ∧ r.original_url = url ∧
      r.transition_count = 0 ∧ res.short_url = base ++ r.short_code := by
  unfold shorten at h
  by_cases hv : isValidHttpUrl url = false
  · simp [hv] at h
  · rw [if_neg hv] at h
    cases hl : shortenLoop gen url now store 0 maxAttempts with
    | mk st2 ex =>
      cases ex with
      | error e => rw [hl] at h; simp at h
      | ok r =>
        rw [hl] at h
        obtain ⟨hnone, hst, hurl, _, htc⟩ :=
          shortenLoop_ok gen url now maxAttempts 0 store st2 r hl
        rw [Prod.mk.injEq] at h
        obtain ⟨hs, hr⟩ := h
        injection hr with hr
        subst hr
        subst hs
        exact ⟨r, hst, rfl, hnone, hurl, htc, rfl⟩

/-! ## Claim C2 -/

/-- C2: `short_code` is unique for the lifetime of the store — `insert` fails
with `DuplicateCode` when the code already exists (never two records with one
code), and a successful `shorten` returns a code not previously present,
preserving uniqueness of the stored codes. -/
theorem C2_short_code_unique (store : Store) (code url : String) (now : Nat)
    (gen : CodeGen) (base : String) (store' : Store) (res : ShortenResult) :
    ((findByCode store code).isSome = true →
      insert store code url now = (store, .error .DuplicateCode)) ∧
    ((codes store).Nodup → shorten gen base now store url = (store', .ok res) →
      res.short_code ∉ codes store ∧ (codes store').Nodup) := by
  constructor
  · intro h
    unfold insert
    cases hf : findByCode store code with
    | none => rw [hf] at h; simp at h
    | some r => rfl
  · intro hnd hsh
    obtain ⟨r, hst, hcode, hnone, -, -, -⟩ :=
      shorten_ok gen base now store url store' res hsh
    have hmem : r.short_code ∉ codes store :=
      (findByCode_eq_none_iff store r.short_code).1 hnone
    refine ⟨by rw [hcode]; exact hmem, ?_⟩
    subst hst
    have hco : codes (store ++ [r]) = codes store ++ [r.short_code] := by simp [codes]
    rw [hco]
    refine hnd.append (List.nodup_singleton _) ?_
    intro a ha hb
    rw [List.mem_singleton] at hb
    subst hb
    exact hmem ha

/-- Witness for C2: inserting an existing code fails with `DuplicateCode`;
a concrete successful `shorten` on the empty store yields a fresh code
keeping the code list duplicate-free. -/
theorem C2_witness :
    insert [⟨"c0", "u", 0, 0⟩] "c0" "v" 1 = ([⟨"c0", "u", 0, 0⟩], .error .DuplicateCode) ∧
    ("c0" ∉ codes ([] : Store) ∧
      (codes [(⟨"c0", "https://example.com", 10, 0⟩ : LinkRecord)]).Nodup) :=
  ⟨(C2_short_code_unique [⟨"c0", "u", 0, 0⟩] "c0" "v" 1
      (fun _ n => "c" ++ toString n) "http://host/" [] ⟨"c0", "c"⟩).1 (by rfl),
   (C2_short_code_unique [] "x" "https://example.com" 10
      (fun _ n => "c" ++ toString n) "http://host/"
      [⟨"c0", "https://example.com", 10, 0⟩] ⟨"c0", "http://host/c0"⟩).2
      (by simp [codes]) (by rfl)⟩

/-! ## Claim C6 -/

/-- C6: round-trip — when `shorten u` succeeds, `resolveAndCount` on the
returned short code yields `u` unchanged. -/
theorem C6_round_trip (gen : CodeGen) (base : String) (now : Nat) (store : Store)
    (u : String) (store' : Store) (res : ShortenResult)
    (h : shorten gen base now store u = (store', .ok res)) :
    (resolveAndCount store' res.short_code).2 = .ok u := by
  obtain ⟨r, hst, hcode, hnone, hurl, -, -⟩ :=
    shorten_ok gen base now store u store' res h
  have hfind : findByCode store' res.short_code = some r := by
    subst hst
    rw [hcode]
    unfold findByCode at hnone ⊢
    rw [List.find?_append, hnone]
    simp [List.find?_cons]
  simp [resolveAndCount, hfind, hurl]

/-- Witness for C6: a concrete `shorten` of `"https://example.com"` followed
by `resolveAndCount` of the returned code gives back the original URL. -/
theorem C6_witness :
    (resolveAndCount [⟨"c0", "https://example.com", 10, 0⟩] "c0").2 =
      .ok "https://example.com" :=
  C6_round_trip (fun _ n => "c" ++ toString n) "http://host/" 10 [] "https://example.com"
    [⟨"c0", "https://example.com", 10, 0⟩] ⟨"c0", "http://host/c0"⟩ (by rfl)

/-! ## Claim C5 -/

/-- C5: `shorten` accepts only absolute http/https URLs — any other input
fails with `InvalidUrl` and writes nothing to the store — and the client-side
validator in App accepts exactly the strings that parse as URLs with protocol
`http:` or `https:`, sending no request otherwise. -/
theorem C5_url_validation (parse : UrlParse) (s : String) (gen : CodeGen)
    (base : String) (now : Nat) (store : Store) :
    (validateUrl parse s = true ↔
      ∃ p, parse s = some p ∧ (p.protocol = "http:" ∨ p.protocol = "https:")) ∧
    (validateUrl parse s = false →
      handleSubmit parse s = ⟨false, some "Please enter a valid http(s) URL."⟩) ∧
    (isValidHttpUrl s = false →
      shorten gen base now store s = (store, .error .InvalidUrl)) := by
  refine ⟨?_, ?_, ?_⟩
  · unfold validateUrl
    cases hp : parse s with
    | none => simp
    | some p => simp
  · intro h
    simp [handleSubmit, h]
  · intro h
    simp [shorten, h]

/-- Witness for C5: `"not-a-url"` is rejected by the client validator with no
request sent, and rejected by `shorten` with `InvalidUrl` and an unchanged
store. -/
theorem C5_witness :
    handleSubmit (fun _ => none) "not-a-url" =
      ⟨false, some "Please enter a valid http(s) URL."⟩ ∧
    shorten (fun _ n => "c" ++ toString n) "http://host/" 0 [] "not-a-url" =
      ([], .error .InvalidUrl) :=
  ⟨(C5_url_validation (fun _ => none) "not-a-url"
      (fun _ n => "c" ++ toString n) "http://host/" 0 []).2.1 (by rfl),
   (C5_url_validation (fun _ => none) "not-a-url"
      (fun _ n => "c" ++ toString n) "http://host/" 0 []).2.2 (by decide)⟩

/-! ## Claim C9 -/

/-- C9: `getAnalytics` is a pure read — the store is returned unchanged —
failing with `NotFound` when the code is absent, and otherwise returning
exactly the four persisted fields `short_code`, `original_url`, `created_at`,
`transition_count` of the stored record. -/
theorem C9_getAnalytics_pure_read (store : Store) (code : String) :
    (getAnalytics store code).1 = store ∧
    (findByCode store code = none → (getAnalytics store code).2 = .error .NotFound) ∧
    (∀ r, findByCode store code = some r →
      (getAnalytics store code).2 =
        .ok ⟨r.short_code, r.original_url, r.created_at, r.transition_count⟩) := by
  refine ⟨?_, ?_, ?_⟩
  · unfold getAnalytics
    cases findByCode store code <;> rfl
  · intro h
    simp [getAnalytics, h]
  · intro r h
    simp [getAnalytics, h]

/-- Witness for C9: concrete store — present code returns its four fields
with the store untouched; absent code yields `NotFound`. -/
theorem C9_witness :
    (getAnalytics [⟨"a", "https://x", 5, 2⟩] "a").1 = [⟨"a", "https://x", 5, 2⟩] ∧
    (getAnalytics [⟨"a", "https://x", 5, 2⟩] "a").2 = .ok ⟨"a", "https://x", 5, 2⟩ ∧
    (getAnalytics [⟨"a", "https://x", 5, 2⟩] "zz").2 = .error .NotFound := by
  refine ⟨(C9_getAnalytics_pure_read [⟨"a", "https://x", 5, 2⟩] "a").1, ?_, ?_⟩
  · exact (C9_getAnalytics_pure_read [⟨"a", "https://x", 5, 2⟩] "a").2.2
      ⟨"a", "https://x", 5, 2⟩ rfl
  · exact (C9_getAnalytics_pure_read [⟨"a", "https://x", 5, 2⟩] "zz").2.1 rfl

/-! ## Claim C7 -/

theorem withRetryGo_attempts_le {α : Type} (fn : Attempt α) :
    ∀ r i, (withRetryGo fn i r).2 ≤ i + r + 1 := by
  intro r
  induction r with
  | zero =>
    intro i
    unfold withRetryGo
    cases fn i <;> simp
  | succ n ih =>
    intro i
    unfold withRetryGo
    cases h : fn i with
    | ok v => simp
    | error e =>
      dsimp only
      by_cases hr : e.response.isNone = true
      · rw [if_pos hr]
        have h2 := ih (i + 1)
        omega
      · rw [if_neg hr]
        simp

/-- C7: the HTTP layer's retry is bounded and selective — `withRetry` with
the default of 2 retries makes at most 3 attempts in total; an error carrying
an HTTP response is thrown immediately after the first attempt with no
retry; an error carrying no response is retried until the 3 attempts are
exhausted. -/
theorem C7_retry_bounded {α : Type} (fn : Attempt α) (e : AxiosError) :
    (withRetryDefault fn).2 ≤ 3 ∧
    (fn 0 = .error e → e.response.isSome = true →
      withRetryDefault fn = (.error e, 1)) ∧
    ((∀ i, fn i = .error e) → e.response = none →
      withRetryDefault fn = (.error e, 3)) := by
  refine ⟨withRetryGo_attempts_le fn 2 0, ?_, ?_⟩
  · intro h0 hresp
    have hnone : ¬ e.response.isNone = true := by
      cases hr : e.response with
      | none => rw [hr] at hresp; simp at hresp
      | some rd => simp [hr]
    unfold withRetryDefault withRetry withRetryGo
    rw [h0]
    dsimp only
    rw [if_neg hnone]
  · intro hall hresp
    have hnone : e.response.isNone = true := by rw [hresp]; rfl
    unfold withRetryDefault withRetry
    unfold withRetryGo
    rw [hall 0]
    dsimp only
    rw [if_pos hnone]
    unfold withRetryGo
    rw [hall 1]
    dsimp only
    rw [if_pos hnone]
    unfold withRetryGo
    rw [hall 2]

/-- Witness for C7: a permanently failing call — with a response it is thrown
after exactly 1 attempt; with a network error it is thrown after exactly 3. -/
theorem C7_witness :
    (withRetryDefault (fun _ => (.error ⟨some ⟨some "bad"⟩, "m"⟩ : Except AxiosError Nat))).2 ≤ 3 ∧
    withRetryDefault (fun _ => (.error ⟨some ⟨some "bad"⟩, "m"⟩ : Except AxiosError Nat)) =
      (.error ⟨some ⟨some "bad"⟩, "m"⟩, 1) ∧
    withRetryDefault (fun _ => (.error ⟨none, "boom"⟩ : Except AxiosError Nat)) =
      (.error ⟨none, "boom"⟩, 3) :=
  ⟨(C7_retry_bounded (fun _ => .error ⟨some ⟨some "bad"⟩, "m"⟩) ⟨some ⟨some "bad"⟩, "m"⟩).1,
   (C7_retry_bounded (fun _ => .error ⟨some ⟨some "bad"⟩, "m"⟩) ⟨some ⟨some "bad"⟩, "m"⟩).2.1
     rfl rfl,
   (C7_retry_bounded (fun _ => .error ⟨none, "boom"⟩) ⟨none, "boom"⟩).2.2
     (fun _ => rfl) rfl⟩

/-! ## Claim C8 -/

/-- C8: `hit_count` discipline — it is 0 at insertion; a resolve leaves every
record's count unchanged or incremented, incrementing the addressed code's
count by exactly 1 and no other; and non-negativity of all counts is
preserved by `insert` and `resolveAndCount`. -/
theorem C8_hit_count_invariants (store : Store) (code url : String) (now : Nat)
    (r : LinkRecord) :
    ((insert store code url now).2 = .ok r → r.transition_count = 0) ∧
    ((∀ s ∈ store, 0 ≤ s.transition_count) →
      (∀ s ∈ (insert store code url now).1, 0 ≤ s.transition_count) ∧
      (∀ s ∈ (resolveAndCount store code).1, 0 ≤ s.transition_count)) ∧
    (∀ c r0, findByCode store c = some r0 →
      ∃ r1, findByCode (resolveAndCount store code).1 c = some r1 ∧
        r0.transition_count ≤ r1.transition_count ∧
        (c = code → r1.transition_count = r0.transition_count + 1) ∧
        (c ≠ code → r1.transition_count = r0.transition_count)) := by
  refine ⟨?_, ?_, ?_⟩
  · intro h
    unfold insert at h
    cases hf : findByCode store code with
    | some x => rw [hf] at h; simp at h
    | none =>
      rw [hf] at h
      simp only at h
      injection h with h
      rw [← h]
  · intro hpos
    constructor
    · intro s hs
      unfold insert at hs
      cases hf : findByCode store code with
      | some x => rw [hf] at hs; exact hpos s hs
      | none =>
        rw [hf] at hs
        simp only [List.mem_append, List.mem_singleton] at hs
        cases hs with
        | inl hmem => exact hpos s hmem
        | inr heq => rw [heq]
    · intro s hs
      unfold resolveAndCount at hs
      cases hf : findByCode store code with
      | none => rw [hf] at hs; exact hpos s hs
      | some x =>
        rw [hf] at hs
        simp only [incrementHit, hf, List.mem_map] at hs
        obtain ⟨t, ht, hbt⟩ := hs
        have := hpos t ht
        rw [← hbt]
        unfold bump
        split
        · simp only
          omega
        · exact this
  · intro c r0 h0
    cases hf : findByCode store code with
    | none =>
      refine ⟨r0, ?_, le_refl _, ?_, fun _ => rfl⟩
      · rw [resolveAndCount_fst_not_found store code hf]
        exact h0
      · intro hc
        rw [hc] at h0
        rw [h0] at hf
        exact absurd hf (by simp)
    | some rr =>
      have hfst : (resolveAndCount store code).1 = store.map (bump code) := by
        simp [resolveAndCount, incrementHit, hf]
      have hcode0 := findByCode_some_code store c r0 h0
      refine ⟨bump code r0, ?_, ?_, ?_, ?_⟩
      · rw [hfst, findByCode_map_bump, h0]
        rfl
      · unfold bump
        split
        · simp only
          omega
        · exact le_refl _
      · intro hc
        unfold bump
        rw [if_pos (by rw [hcode0, hc])]
      · intro hc
        unfold bump
        rw [if_neg (by rw [hcode0]; exact hc)]

/-- Witness for C8: a freshly inserted record has count 0; resolving a store
holding code `"a"` at count 2 keeps all counts non-negative and moves that
record to exactly 3. -/
theorem C8_witness :
    ((⟨"a", "u", 5, 0⟩ : LinkRecord).transition_count = 0) ∧
    (∀ s ∈ (resolveAndCount [⟨"a", "u", 0, 2⟩] "a").1, 0 ≤ s.transition_count) ∧
    (∃ r1, findByCode (resolveAndCount [⟨"a", "u", 0, 2⟩] "a").1 "a" = some r1 ∧
      (⟨"a", "u", 0, 2⟩ : LinkRecord).transition_count ≤ r1.transition_count ∧
      ("a" = "a" → r1.transition_count = (⟨"a", "u", 0, 2⟩ : LinkRecord).transition_count + 1) ∧
      ("a" ≠ "a" → r1.transition_count = (⟨"a", "u", 0, 2⟩ : LinkRecord).transition_count)) := by
  refine ⟨(C8_hit_count_invariants [] "a" "u" 5 ⟨"a", "u", 5, 0⟩).1 rfl, ?_, ?_⟩
  · exact ((C8_hit_count_invariants [⟨"a", "u", 0, 2⟩] "a" "u" 5 ⟨"a", "u", 5, 0⟩).2.1
      (by decide)).2
  · exact (C8_hit_count_invariants [⟨"a", "u", 0, 2⟩] "a" "u" 5 ⟨"a", "u", 5, 0⟩).2.2
      "a" ⟨"a", "u", 0, 2⟩ rfl

/-! ## Claim C10 -/

/-- C10 (counterexample): a `shortenUrl` failure whose error carries an HTTP
response, no server `error` field and an empty own message is thrown with the
fixed fallback text `"Failed to shorten URL."`, not with the underlying
error's own message as the claim requires. -/
theorem C10_counterexample :
    (⟨some ⟨none⟩, ""⟩ : AxiosError).response.isSome = true ∧
    shortenUrlMessage ⟨some ⟨none⟩, ""⟩ = "Failed to shorten URL." ∧
    shortenUrlMessage ⟨some ⟨none⟩, ""⟩ ≠ (⟨some ⟨none⟩, ""⟩ : AxiosError).message := by
  refine ⟨rfl, rfl, ?_⟩
  decide

/-- C10 (amended): the thrown message is the exact network-error text
whenever the error carries no response; when a response is present the
message is the server's `error` field when that field is a non-empty string,
otherwise the error's own message when that is non-empty, otherwise the fixed
per-endpoint fallback text. -/
theorem C10_message_amended (dflt : String) (e : AxiosError) (rd : RespData) :
    (shortenUrlMessage e = apiMessage "Failed to shorten URL." e) ∧
    (getAnalyticsMessage e = apiMessage "Failed to fetch analytics." e) ∧
    (e.response = none → apiMessage dflt e = "Network error: Unable to reach backend.") ∧
    (∀ s, e.response = some rd → rd.errorField = some s → s ≠ "" →
      apiMessage dflt e = s) ∧
    (e.response = some rd → (rd.errorField = none ∨ rd.errorField = some "") →
      e.message ≠ "" → apiMessage dflt e = e.message) ∧
    (e.response = some rd → (rd.errorField = none ∨ rd.errorField = some "") →
      e.message = "" → apiMessage dflt e = dflt) := by
  refine ⟨rfl, rfl, ?_, ?_, ?_, ?_⟩
  · intro h
    simp [apiMessage, h]
  · intro s hr hf hs
    simp [apiMessage, errFieldStr, jsOrStr, hr, hf, hs]
  · intro hr hf hm
    cases hf with
    | inl h => simp [apiMessage, errFieldStr, jsOrStr, hr, h, hm]
    | inr h => simp [apiMessage, errFieldStr, jsOrStr, hr, h, hm]
  · intro hr hf hm
    cases hf with
    | inl h => simp [apiMessage, errFieldStr, jsOrStr, hr, h, hm]
    | inr h => simp [apiMessage, errFieldStr, jsOrStr, hr, h, hm]

/-- Witness for C10 (amended): a server-reported error message is surfaced
verbatim; a network error is surfaced as the fixed network text. -/
theorem C10_witness :
    apiMessage "Failed to shorten URL." ⟨some ⟨some "URL is invalid"⟩, "request failed"⟩ =
      "URL is invalid" ∧
    apiMessage "Failed to shorten URL." ⟨none, "boom"⟩ =
      "Network error: Unable to reach backend." :=
  ⟨(C10_message_amended "Failed to shorten URL."
      ⟨some ⟨some "URL is invalid"⟩, "request failed"⟩ ⟨some "URL is invalid"⟩).2.2.2.1
      "URL is invalid" rfl rfl (by decide),
   (C10_message_amended "Failed to shorten URL." ⟨none, "boom"⟩ ⟨none⟩).2.2.1 rfl⟩

/-! ## Helper lemmas about the Migration Runner -/

theorem appliedIds_append_one (hist : List MigrationRecord) (i t : Nat) :
    appliedIds (hist ++ [⟨i, t⟩]) = appliedIds hist ++ [i] := by
  simp [appliedIds]

theorem runRegistry_all_applied {DB : Type} (now : Nat) :
    ∀ (reg : List (Migration DB)) (db : DB) (hist : List MigrationRecord),
      (∀ m ∈ reg, m.id ∈ appliedIds hist) →
      runRegistry now reg db hist = .ok (db, hist, []) := by
  intro reg
  induction reg with
  | nil => intro db hist _; rfl
  | cons m rest ih =>
    intro db hist hall
    have hm : m.id ∈ appliedIds hist := hall m (List.mem_cons_self m rest)
    unfold runRegistry
    rw [if_pos hm]
    exact ih db hist (fun x hx => hall x (List.mem_cons_of_mem m hx))

theorem runRegistry_ok_spec {DB : Type} (now : Nat) :
    ∀ (reg : List (Migration DB)) (db db' : DB) (hist hist' : List MigrationRecord)
      (trace : List Nat),
      runRegistry now reg db hist = .ok (db', hist', trace) →
      appliedIds hist' = appliedIds hist ++ trace ∧
      List.Sorted (· < ·) trace ∧
      (∀ t ∈ trace, ∀ j ∈ appliedIds hist, j < t) ∧
      (∀ m ∈ reg, m.id ∈ appliedIds hist') := by
  intro reg
  induction reg with
  | nil =>
    intro db db' hist hist' trace h
    unfold runRegistry at h
    simp only [Except.ok.injEq, Prod.mk.injEq] at h
    obtain ⟨-, h2, h3⟩ := h
    subst h2
    subst h3
    simp [List.sorted_nil]
  | cons m rest ih =>
    intro db db' hist hist' trace h
    unfold runRegistry at h
    by_cases hm : m.id ∈ appliedIds hist
    · rw [if_pos hm] at h
      obtain ⟨he, hs, hgt, hmem⟩ := ih db db' hist hist' trace h
      refine ⟨he, hs, hgt, ?_⟩
      intro x hx
      rcases List.mem_cons.1 hx with hx | hx
      · subst hx
        rw [he]
        exact List.mem_append_left _ hm
      · exact hmem x hx
    · rw [if_neg hm] at h
      by_cases hgap : (appliedIds hist).any (fun j => m.id < j) = true
      · rw [if_pos hgap] at h
        simp at h
      · rw [if_neg hgap] at h
        have hlt : ∀ j ∈ appliedIds hist, j < m.id := by
          intro j hj
          have hle : ¬ m.id < j := by
            intro hc
            exact hgap (List.any_eq_true.2 ⟨j, hj, by simpa using hc⟩)
          rcases Nat.lt_or_ge j m.id with hlt | hge
          · exact hlt
          · exact absurd hj (by
              have : j = m.id := Nat.le_antisymm (Nat.le_of_not_lt hle) hge
              rw [this]
              exact hm)
        cases hup : m.up db with
        | none => rw [hup] at h; simp at h
        | some db2 =>
          rw [hup] at h
          dsimp only at h
          cases hrec : runRegistry now rest db2 (hist ++ [⟨m.id, now⟩]) with
          | error e2 => rw [hrec] at h; simp at h
          | ok trip =>
            obtain ⟨db3, hist3, tr3⟩ := trip
            rw [hrec] at h
            simp only [Except.ok.injEq, Prod.mk.injEq] at h
            obtain ⟨hdb, hh, htr⟩ := h
            subst hdb
            subst hh
            subst htr
            obtain ⟨he, hs, hgt, hmem⟩ := ih _ _ _ _ _ hrec
            rw [appliedIds_append_one] at he hgt
            have hmid : ∀ t ∈ tr3, m.id < t := by
              intro t ht
              exact hgt t ht m.id (List.mem_append_right _ (List.mem_singleton.2 rfl))
            refine ⟨?_, ?_, ?_, ?_⟩
            · rw [he, List.append_assoc]
              rfl
            · rw [List.sorted_cons]
              exact ⟨hmid, hs⟩
            · intro t ht j hj
              rcases List.mem_cons.1 ht with ht | ht
              · subst ht
                exact hlt j hj
              · exact hgt t ht j (List.mem_append_left _ hj)
            · intro x hx
              rcases List.mem_cons.1 hx with hx | hx
              · subst hx
                rw [he]
                exact List.mem_append_left _ (List.mem_append_right _ (List.mem_singleton.2 rfl))
              · exact hmem x hx

theorem runRegistry_trace_of_disjoint {DB : Type} (now : Nat) :
    ∀ (reg : List (Migration DB)) (db db' : DB) (hist hist' : List MigrationRecord)
      (trace : List Nat),
      (reg.map (fun x => x.id)).Nodup →
      (∀ i ∈ appliedIds hist, i ∉ reg.map (fun x => x.id)) →
      runRegistry now reg db hist = .ok (db', hist', trace) →
      trace = reg.map (fun x => x.id) := by
  intro reg
  induction reg with
  | nil =>
    intro db db' hist hist' trace _ _ h
    unfold runRegistry at h
    simp only [Except.ok.injEq, Prod.mk.injEq] at h
    obtain ⟨-, -, h3⟩ := h
    subst h3
    rfl
  | cons m rest ih =>
    intro db db' hist hist' trace hnd hdisj h
    unfold runRegistry at h
    have hm : m.id ∉ appliedIds hist := by
      intro hmem
      exact hdisj m.id hmem (List.mem_map.2 ⟨m, List.mem_cons_self m rest, rfl⟩)
    rw [if_neg hm] at h
    by_cases hgap : (appliedIds hist).any (fun j => m.id < j) = true
    · rw [if_pos hgap] at h
      simp at h
    · rw [if_neg hgap] at h
      cases hup : m.up db with
      | none => rw [hup] at h; simp at h
      | some db2 =>
        rw [hup] at h
        dsimp only at h
        cases hrec : runRegistry now rest db2 (hist ++ [⟨m.id, now⟩]) with
        | error e2 => rw [hrec] at h; simp at h
        | ok trip =>
          obtain ⟨db3, hist3, tr3⟩ := trip
          rw [hrec] at h
          simp only [Except.ok.injEq, Prod.mk.injEq] at h
          obtain ⟨-, -, htr⟩ := h
          subst htr
          have hnd2 : (∀ x ∈ rest, ¬ x.id = m.id) ∧
              (rest.map (fun x => x.id)).Nodup := by simpa using hnd
          have hdisj2 : ∀ i ∈ appliedIds (hist ++ [⟨m.id, now⟩]),
              i ∉ rest.map (fun x => x.id) := by
            intro i hi
            rw [appliedIds_append_one] at hi
            rcases List.mem_append.1 hi with hi | hi
            · intro hmem
              exact hdisj i hi (List.mem_map.2
                (by
                  obtain ⟨x, hx, hxe⟩ := List.mem_map.1 hmem
                  exact ⟨x, List.mem_cons_of_mem m hx, hxe⟩))
            · rw [List.mem_singleton.1 hi]
              intro hmem
              obtain ⟨x, hx, hxe⟩ := List.mem_map.1 hmem
              exact hnd2.1 x hx hxe
          have := ih _ _ _ _ _ hnd2.2 hdisj2 hrec
          rw [this]
          rfl

/-! ## Claim C3 -/

/-- C3: the Migration Runner is idempotent — when every registry id is
already in the history it returns the database and history unchanged with an
empty application trace (zero writes), and an immediate second run after any
successful run applies zero further migrations and leaves the history
unchanged. -/
theorem C3_runner_idempotent {DB : Type} (now now2 : Nat) (reg : List (Migration DB))
    (db db' : DB) (hist hist' : List MigrationRecord) (trace : List Nat) :
    ((∀ m ∈ reg, m.id ∈ appliedIds hist) →
      runRegistry now reg db hist = .ok (db, hist, [])) ∧
    (runRegistry now reg db hist = .ok (db', hist', trace) →
      runRegistry now2 reg db' hist' = .ok (db', hist', [])) := by
  constructor
  · exact runRegistry_all_applied now reg db hist
  · intro h
    exact runRegistry_all_applied now2 reg db' hist'
      ((runRegistry_ok_spec now reg db db' hist hist' trace h).2.2.2)

/-- Witness for C3: a one-migration registry run from empty state, then run
again — the second run changes nothing and applies nothing. -/
theorem C3_witness :
    runRegistry 7 [⟨1, fun d => some (d + 1), fun d => d⟩] (1 : Nat) [⟨1, 5⟩] =
      .ok (1, [⟨1, 5⟩], []) :=
  (C3_runner_idempotent 5 7 [⟨1, fun d => some (d + 1), fun d => d⟩]
    (0 : Nat) 1 [] [⟨1, 5⟩] [1]).2 rfl

/-! ## Claim C4 -/

/-- C4: migrations are applied strictly in ascending id order — every
successful run's application trace is strictly increasing and each applied id
is recorded in the history (earlier ones before later ones are attempted);
from empty state a duplicate-free registry is applied exactly in registry
order; and a pending migration older than an already-applied one is a fatal
`Gap` startup error, never a silent skip. -/
theorem C4_migration_ordering {DB : Type} (now : Nat) (reg rest : List (Migration DB))
    (db db' : DB) (hist hist' : List MigrationRecord) (trace : List Nat)
    (m : Migration DB) :
    (runRegistry now reg db hist = .ok (db', hist', trace) →
      List.Sorted (· < ·) trace ∧ appliedIds hist' = appliedIds hist ++ trace) ∧
    ((reg.map (fun x => x.id)).Nodup →
      runRegistry now reg db [] = .ok (db', hist', trace) →
      trace = reg.map (fun x => x.id)) ∧
    (m.id ∉ appliedIds hist → (∃ j ∈ appliedIds hist, m.id < j) →
      runRegistry now (m :: rest) db hist = .error (.Gap m.id)) := by
  refine ⟨?_, ?_, ?_⟩
  · intro h
    obtain ⟨he, hs, -, -⟩ := runRegistry_ok_spec now reg db db' hist hist' trace h
    exact ⟨hs, he⟩
  · intro hnd h
    exact runRegistry_trace_of_disjoint now reg db db' [] hist' trace hnd
      (by intro i hi; simp [appliedIds] at hi) h
  · intro hm hgap
    unfold runRegistry
    rw [if_neg hm, if_pos ?_]
    obtain ⟨j, hj, hlt⟩ := hgap
    exact List.any_eq_true.2 ⟨j, hj, by simpa using hlt⟩

/-- Witness for C4: a two-migration registry applied from empty state in
ascending order `[1, 2]`; and a registry whose pending migration 1 is older
than the already-applied id 2, which fails with `Gap 1`. -/
theorem C4_witness :
    (List.Sorted (· < ·) [1, 2] ∧
      appliedIds [⟨1, 5⟩, ⟨2, 5⟩] = appliedIds [] ++ [1, 2]) ∧
    runRegistry 5 [⟨1, fun d => some (d + 1), fun d => d⟩,
        ⟨2, fun d => some (d + 2), fun d => d⟩] (0 : Nat) [⟨2, 0⟩] =
      .error (.Gap 1) :=
  ⟨(C4_migration_ordering 5
      [⟨1, fun d => some (d + 1), fun d => d⟩, ⟨2, fun d => some (d + 2), fun d => d⟩]
      [] (0 : Nat) 3 [] [⟨1, 5⟩, ⟨2, 5⟩] [1, 2]
      ⟨1, fun d => some (d + 1), fun d => d⟩).1 (by rfl),
   (C4_migration_ordering 5
      [⟨1, fun d => some (d + 1), fun d => d⟩, ⟨2, fun d => some (d + 2), fun d => d⟩]
      [⟨2, fun d => some (d + 2), fun d => d⟩] (0 : Nat) 3 [⟨2, 0⟩] [] []
      ⟨1, fun d => some (d + 1), fun d => d⟩).2.2 (by decide)
      ⟨2, by decide, by decide⟩⟩

end LinksShortener
